import Mathlib

/-!
Verification of the LLM chat application template (Cloudflare Workers AI chat
app): a shallow embedding of the context-assembly pipeline of
`src/index.ts` (`buildContextFromResources`, `handleChatRequest`), of the
client stream consumer and linkify transform of `public/chat.js`, and of the
spec's Policy Compiler, together with theorems settling the spec claims.
-/

namespace ChatApp

/-- Message roles, from the `ChatMessage` interface in `src/types.ts`. -/
inductive Role where
  | system
  | user
  | assistant
deriving DecidableEq, Repr

/-- A chat message, from the `ChatMessage` interface in `src/types.ts`. -/
structure ChatMessage where
  role : Role
  content : String
deriving DecidableEq, Repr

/-- One FAQ entry of the knowledge document (`resources.json`): fields
`q`, `a` and optional `url` as consumed by `buildContextFromResources`. -/
structure FaqEntry where
  q : String
  a : String
  url : Option String
deriving DecidableEq, Repr

/-- The value `loadResources` hands to `buildContextFromResources` when it is
truthy.  `nonObject` models a truthy JSON value that is not an object
(`typeof resources !== "object"`); `obj` models an object, where `brandName`
is `resources.brand?.name` (`none` when the path is missing) and `faq` is
`resources.faq` (`none` when it is not an array). -/
inductive ResDoc where
  | nonObject
  | obj (brandName : Option String) (faq : Option (List FaqEntry))
deriving DecidableEq, Repr

/-- `listIsPrefOf n h` is true when `n` is a prefix of `h` (character lists). -/
def listIsPrefOf : List Char → List Char → Bool
  | [], _ => true
  | _ :: _, [] => false
  | a :: as, b :: bs => a = b && listIsPrefOf as bs

/-- `hasSubList needle hay`: `needle` occurs contiguously inside `hay`;
this models the JavaScript `String.prototype.includes`. -/
def hasSubList (needle : List Char) : List Char → Bool
  | [] => listIsPrefOf needle []
  | h :: t => listIsPrefOf needle (h :: t) || hasSubList needle t

/-- `hay.includes(needle)` from JavaScript. -/
def strIncludes (hay needle : String) : Bool :=
  hasSubList needle.data hay.data

/-- JavaScript `toLowerCase`, modelled as the per-character lowering
(`Char.toLower`; ASCII-complete, which covers the repository's data). -/
def lowerStr (s : String) : String :=
  String.mk (s.data.map Char.toLower)

/-- The ellipsis character appended on truncation.  The source literal in
`src/index.ts` is the single character U+2026 (its UTF-8 bytes appear
double-encoded in some copies of the file). -/
def ellipsisChar : Char := Char.ofNat 0x2026

/-- `String` of one ellipsis character. -/
def ellipsisStr : String := String.mk [ellipsisChar]

/-- The answer-truncation step of `buildContextFromResources`:
`f.a.length > maxAnswerChars ? f.a.slice(0, maxAnswerChars) + "…" : f.a`.
Lengths/slices are modelled in characters (JS counts UTF-16 units; the two
agree on all text of the basic multilingual plane). -/
def truncAnswer (maxAnswerChars : Nat) (a : String) : String :=
  if maxAnswerChars < a.length then String.mk (a.data.take maxAnswerChars) ++ ellipsisStr
  else a

/-- The per-entry map of `buildContextFromResources`:
`{ q: f.q, a: <truncated answer>, url: f.url }`. -/
def truncEntry (maxAnswerChars : Nat) (f : FaqEntry) : FaqEntry :=
  ⟨f.q, truncAnswer maxAnswerChars f.a, f.url⟩

/-- The substring filter predicate of `buildContextFromResources`:
`qq.includes(q) || aa.includes(q)` where `qq`/`aa` are the lowercased
question/answer and `q` the lowercased query. -/
def faqFilterHit (userQuery : String) (f : FaqEntry) : Bool :=
  strIncludes (lowerStr f.q) (lowerStr userQuery) ||
    strIncludes (lowerStr f.a) (lowerStr userQuery)

/-- Candidate selection of `buildContextFromResources`: filter by the
lowercased query when it is non-empty, then fall back to the full FAQ list
when the filtered set is empty. -/
def selectCandidates (userQuery : String) (faqs : List FaqEntry) : List FaqEntry :=
  let q := lowerStr userQuery
  let candidates := if q = "" then faqs else faqs.filter (faqFilterHit userQuery)
  if candidates = [] then faqs else candidates

/-- The selected, truncated entries of `buildContextFromResources`:
`candidates.slice(0, maxFaq).map (f => ({q, a: truncated, url}))`. -/
def selectedFaq (userQuery : String) (faqs : List FaqEntry)
    (maxFaq maxAnswerChars : Nat) : List FaqEntry :=
  ((selectCandidates userQuery faqs).take maxFaq).map (truncEntry maxAnswerChars)

/-- One hexadecimal digit, for `\uXXXX` escapes in the JSON rendering. -/
def hexDigitChar (n : Nat) : Char :=
  if n < 10 then Char.ofNat (48 + n) else Char.ofNat (87 + n)

/-- JSON string-character escaping as performed by `JSON.stringify`. -/
def jsonEscChar (c : Char) : List Char :=
  if c = '"' then ['\\', '"']
  else if c = '\\' then ['\\', '\\']
  else if c = '\n' then ['\\', 'n']
  else if c = '\r' then ['\\', 'r']
  else if c = '\t' then ['\\', 't']
  else if c = Char.ofNat 8 then ['\\', 'b']
  else if c = Char.ofNat 12 then ['\\', 'f']
  else if c.toNat < 32 then
    ['\\', 'u', '0', '0', hexDigitChar (c.toNat / 16), hexDigitChar (c.toNat % 16)]
  else [c]

/-- `JSON.stringify` of a string value. -/
def jsonStr (s : String) : String :=
  "\"" ++ String.mk (s.data.flatMap jsonEscChar) ++ "\""

/-- `JSON.stringify` of one selected FAQ entry `{q, a, url}`; an `undefined`
`url` property is omitted, as `JSON.stringify` does. -/
def faqEntryJson (f : FaqEntry) : String :=
  "\x7b\"q\":" ++ jsonStr f.q ++ ",\"a\":" ++ jsonStr f.a ++
    (match f.url with
      | some u => ",\"url\":" ++ jsonStr u
      | none => "") ++ "\x7d"

/-- `JSON.stringify({ brand, selected_faq: selected })`. -/
def compactJson (brand : String) (selected : List FaqEntry) : String :=
  "\x7b\"brand\":" ++ jsonStr brand ++ ",\"selected_faq\":[" ++
    String.intercalate "," (selected.map faqEntryJson) ++ "]\x7d"

/-- The brand fallback `resources.brand?.name || "Lily Virtual Support"`. -/
def defaultBrand : String := "Lily Virtual Support"

/-- `resources.brand?.name || defaultBrand`: the default applies when the
path is absent or the name is the empty (falsy) string. -/
def brandOf (brandName : Option String) : String :=
  match brandName with
  | some s => if s = "" then defaultBrand else s
  | none => defaultBrand

/-- `buildContextFromResources` from `src/index.ts`: `none` models the
`null` return for a non-object argument; for an object it always returns
the `JSON.stringify`-ed compact blob. -/
def buildContextFromResources (userQuery : String) (resources : ResDoc)
    (maxFaq maxAnswerChars : Nat) : Option String :=
  match resources with
  | .nonObject => none
  | .obj brandName faq =>
      let faqs := faq.getD []
      some (compactJson (brandOf brandName)
        (selectedFaq userQuery faqs maxFaq maxAnswerChars))

/-- Modelled from the spec: a directive value is either text or an arbitrary
structured value; the spec (§4.3) says non-text values are "rendered as their
structured-data textual form", which the `structured` constructor carries
already rendered.  The directives loader/compiler is absent from `src/`. -/
inductive DirValue where
  | text (s : String)
  | structured (rendered : String)
deriving DecidableEq, Repr

/-- Modelled from the spec: a directives document is a flat mapping from
field names to values; it is kept as an association list so that the source
document's own key order is represented. -/
def Directives : Type := List (String × DirValue)

/-- First-binding lookup in a directives document. -/
def lookupField (f : String) : Directives → Option DirValue
  | [] => none
  | kv :: rest => if kv.1 = f then some kv.2 else lookupField f rest

/-- Modelled from the spec: the fixed, hardcoded, ordered list of recognized
directive field names.  The spec (§4.3) names these six of the ~20 fields
("style, tone, max_response_length, introduction, escalation_logic,
link_policy, etc."); the model uses the named ones, in that order. -/
def recognizedFields : List String :=
  ["style", "tone", "max_response_length", "introduction",
   "escalation_logic", "link_policy"]

/-- Modelled from the spec: a value is skipped when it is an absent field or
an empty/whitespace-only string (§4.3). -/
def isBlankValue : DirValue → Bool
  | .text s => s.data.all (fun c => c = ' ' ∨ c = '\t' ∨ c = '\n' ∨ c = '\r')
  | .structured _ => false

/-- The textual rendering of a directive value. -/
def renderDirValue : DirValue → String
  | .text s => s
  | .structured r => r

/-- Modelled from the spec: the fixed header declaring the compiled block a
strict policy (§4.3); the exact wording is not pinned down by the spec. -/
def policyHeader : String :=
  "Strict policy - follow these directives exactly:"

/-- Modelled from the spec: the line contributed by one recognized field, or
`none` when the field is absent or blank (§4.3). -/
def fieldLine (doc : Directives) (f : String) : Option String :=
  match lookupField f doc with
  | none => none
  | some v => if isBlankValue v then none else some (f ++ ": " ++ renderDirValue v)

/-- Modelled from the spec: the Policy Compiler (§4.3), absent from `src/`.
It walks the fixed recognized-field order, collects `"<label>: <value>"`
lines, returns `none` when no field produced output and otherwise prefixes
the fixed strict-policy header. -/
def compileDirectives (doc : Directives) : Option String :=
  let lines := recognizedFields.filterMap (fieldLine doc)
  if lines = [] then none
  else some (policyHeader ++ ("\n" ++ String.intercalate "\n" lines))

/-- The baseline persona system prompt `SYSTEM_PROMPT` of `src/index.ts`. -/
def SYSTEM_PROMPT : String :=
  "You are Lily, the Learn It Live virtual support assistant. Answer concisely and accurately about Learn It Live classes, schedules, recordings, membership, pricing, and account help. Use the provided Learn It Live resources and URLs when relevant. If unsure or the information is not in the resources, say you are not certain and suggest visiting the Help page."

/-- `messages.some(msg => msg.role === "system")`. -/
def hasSystem (ms : List ChatMessage) : Bool :=
  ms.any (fun m => m.role == Role.system)

/-- `messages.filter(m => m.role === "user").slice(-1)[0]?.content ?? ""`. -/
def latestUserContent (ms : List ChatMessage) : String :=
  match (ms.filter (fun m => m.role == Role.user)).getLast? with
  | some m => m.content
  | none => ""

/-- The retrieval-augmentation capability: `some f` models a configured
`env.AUTORAG_INSTANCE` with a callable `env.AI.autorag`, where `f query`
is the stringified search result, or `none` for a null result or a caught
failure (the code's silent fallback). -/
def RagCap : Type := Option (String → Option String)

/-- The context-assembly steps of `handleChatRequest` in `src/index.ts`:
baseline prompt, resources context, then AutoRAG retrieval context, each
conditionally prepended to the front of the message list.  The directives
step is Modelled from the spec: step 3 of §4.4 (load directives, compile
via the Policy Compiler, prepend when present) is absent from `src/` and is
inserted where the spec places it, between the resources and the retrieval
steps. -/
def assemble (history : List ChatMessage) (resources : Option ResDoc)
    (directives : Option Directives) (ragCap : RagCap) : List ChatMessage :=
  let m1 := if hasSystem history then history
    else ⟨Role.system, SYSTEM_PROMPT⟩ :: history
  let latestUser := latestUserContent m1
  let m2 := match resources with
    | none => m1
    | some rd => match buildContextFromResources latestUser rd 5 400 with
        | none => m1
        | some c => ⟨Role.system, "Learn It Live resources (selected): " ++ c⟩ :: m1
  let m3 := match directives with
    | none => m2
    | some dd => match compileDirectives dd with
        | none => m2
        | some p => ⟨Role.system, p⟩ :: m2
  match ragCap with
  | none => m3
  | some f =>
      if latestUser = "" then m3
      else match f latestUser with
        | none => m3
        | some res => ⟨Role.system, "AutoRAG context: " ++ res⟩ :: m3

/-- The `messages` destructuring outcome of `handleChatRequest`:
`missing` means the parsed body has no (or an `undefined`) `messages`
property, so the destructuring default `[]` applies; `nullOrNonArray` means
the property is present but not an array (including `null`), so
`messages.some(...)` throws a `TypeError` inside the `try`; `arr` is an
actual message array. -/
inductive MessagesField where
  | missing
  | nullOrNonArray
  | arr (ms : List ChatMessage)
deriving Repr

/-- The request body as seen by `handleChatRequest`: `malformed` means
`request.json()` throws (not JSON); `jsonNull` is the JSON text `null`,
whose destructuring throws a `TypeError`; `jsonObj` is any other JSON value
(objects, and primitives, which destructure to an absent `messages`). -/
inductive RequestBody where
  | malformed
  | jsonNull
  | jsonObj (mf : MessagesField)
deriving Repr

/-- The observable outcome of `handleChatRequest`: the structured 500 error
response produced by the `catch` block, or the `env.AI.run` invocation with
the assembled message list. -/
inductive ChatResult where
  | errorResponse
  | modelCall (messages : List ChatMessage)
deriving Repr

/-- `handleChatRequest` from `src/index.ts`: parse the body (throws land in
the `catch`, which returns the structured error response), assemble context,
and call the model with the assembled messages. -/
def handleChatRequest (body : RequestBody) (resources : Option ResDoc)
    (directives : Option Directives) (ragCap : RagCap) : ChatResult :=
  match body with
  | .malformed => .errorResponse
  | .jsonNull => .errorResponse
  | .jsonObj .nullOrNonArray => .errorResponse
  | .jsonObj .missing => .modelCall (assemble [] resources directives ragCap)
  | .jsonObj (.arr ms) => .modelCall (assemble ms resources directives ragCap)

/-- The baseline-prompt layer: the singleton prepended by step 1 of the
assembly, or `[]` when the history already has a system message. -/
def baseMsgs (h : List ChatMessage) : List ChatMessage :=
  if hasSystem h then [] else [⟨Role.system, SYSTEM_PROMPT⟩]

/-- The resources layer: the singleton system message prepended when the
loaded document yields a compact blob, else `[]`. -/
def resMsgs (latestUser : String) (resources : Option ResDoc) : List ChatMessage :=
  match resources with
  | none => []
  | some rd => match buildContextFromResources latestUser rd 5 400 with
      | none => []
      | some c => [⟨Role.system, "Learn It Live resources (selected): " ++ c⟩]

/-- The policy layer: the singleton system message holding the compiled
policy, else `[]`. -/
def policyMsgs (directives : Option Directives) : List ChatMessage :=
  match directives with
  | none => []
  | some dd => match compileDirectives dd with
      | none => []
      | some p => [⟨Role.system, p⟩]

/-- The retrieval layer: the singleton "AutoRAG context" system message when
the capability is configured, the query non-empty and a result obtained,
else `[]`. -/
def ragMsgs (latestUser : String) (ragCap : RagCap) : List ChatMessage :=
  match ragCap with
  | none => []
  | some f =>
      if latestUser = "" then []
      else match f latestUser with
        | none => []
        | some res => [⟨Role.system, "AutoRAG context: " ++ res⟩]

/-- The JSON value universe produced by `JSON.parse`.  Numbers keep their
lexeme (their textual form in the input). -/
inductive Json where
  | jnull
  | jbool (b : Bool)
  | jnum (lexeme : String)
  | jstr (s : String)
  | jarr (elems : List Json)
  | jobj (fields : List (String × Json))

/-- JSON whitespace accepted by `JSON.parse` between tokens. -/
def isJsonWs (c : Char) : Bool :=
  c = ' ' || c = '\t' || c = '\n' || c = '\r'

/-- Skip JSON whitespace. -/
def skipWs (l : List Char) : List Char := l.dropWhile isJsonWs

/-- Value of a hexadecimal digit, for `\uXXXX` escapes. -/
def hexVal (c : Char) : Option Nat :=
  if '0' ≤ c ∧ c ≤ '9' then some (c.toNat - 48)
  else if 'a' ≤ c ∧ c ≤ 'f' then some (c.toNat - 87)
  else if 'A' ≤ c ∧ c ≤ 'F' then some (c.toNat - 55)
  else none

/-- Body of a JSON string after the opening quote: collects characters and
escapes until the closing quote; raw control characters and bad escapes are
rejected, as `JSON.parse` rejects them.  (Surrogate `\u` escapes, which no
claim exercises, are rejected rather than paired.) -/
def parseStrRest (fuel : Nat) (l : List Char) (acc : List Char) :
    Option (String × List Char) :=
  match fuel, l with
  | 0, _ => none
  | _ + 1, [] => none
  | f + 1, c :: r =>
      if c = '"' then some (String.mk acc.reverse, r)
      else if c = '\\' then
        match r with
        | [] => none
        | e :: r2 =>
            if e = '"' then parseStrRest f r2 ('"' :: acc)
            else if e = '\\' then parseStrRest f r2 ('\\' :: acc)
            else if e = '/' then parseStrRest f r2 ('/' :: acc)
            else if e = 'b' then parseStrRest f r2 (Char.ofNat 8 :: acc)
            else if e = 'f' then parseStrRest f r2 (Char.ofNat 12 :: acc)
            else if e = 'n' then parseStrRest f r2 ('\n' :: acc)
            else if e = 'r' then parseStrRest f r2 ('\r' :: acc)
            else if e = 't' then parseStrRest f r2 ('\t' :: acc)
            else if e = 'u' then
              match r2 with
              | h1 :: h2 :: h3 :: h4 :: r3 =>
                  match hexVal h1, hexVal h2, hexVal h3, hexVal h4 with
                  | some a, some b, some c', some d =>
                      let n := ((a * 16 + b) * 16 + c') * 16 + d
                      if 0xd800 ≤ n ∧ n ≤ 0xdfff then none
                      else parseStrRest f r3 (Char.ofNat n :: acc)
                  | _, _, _, _ => none
              | _ => none
            else none
      else if c.toNat < 32 then none
      else parseStrRest f r (c :: acc)

/-- Decimal-digit test. -/
def isDig (c : Char) : Bool := '0' ≤ c && c ≤ '9'

/-- JSON number lexing: `-? (0 | [1-9][0-9]*) (. [0-9]+)? ([eE][+-]?[0-9]+)?`,
returning the lexeme and the rest. -/
def parseNum (l : List Char) : Option (String × List Char) :=
  let (sign, l1) := match l with
    | '-' :: r => ((['-'] : List Char), r)
    | _ => (([] : List Char), l)
  let intPart := l1.takeWhile isDig
  let l2 := l1.drop intPart.length
  if intPart = [] then none
  else if 1 < intPart.length ∧ intPart.head? = some '0' then none
  else
    let (fracPart, l3) :=
      match l2 with
      | '.' :: r =>
          let ds := r.takeWhile isDig
          if ds = [] then (([] : List Char), l2)
          else ('.' :: ds, r.drop ds.length)
      | _ => (([] : List Char), l2)
    let (expPart, l4) :=
      match l3 with
      | e :: r =>
          if e = 'e' ∨ e = 'E' then
            let (esgn, r2) := match r with
              | '+' :: r3 => ((['+'] : List Char), r3)
              | '-' :: r3 => ((['-'] : List Char), r3)
              | _ => (([] : List Char), r)
            let ds := r2.takeWhile isDig
            if ds = [] then (([] : List Char), l3)
            else (e :: (esgn ++ ds), r2.drop ds.length)
          else (([] : List Char), l3)
      | [] => (([] : List Char), l3)
    some (String.mk (sign ++ intPart ++ fracPart ++ expPart), l4)

mutual

/-- One JSON value (after optional leading whitespace), returning the value
and the unconsumed rest; `fuel` bounds the recursion depth. -/
def parseVal (fuel : Nat) (l : List Char) : Option (Json × List Char) :=
  match fuel with
  | 0 => none
  | f + 1 =>
      match skipWs l with
      | 'n' :: 'u' :: 'l' :: 'l' :: r => some (.jnull, r)
      | 't' :: 'r' :: 'u' :: 'e' :: r => some (.jbool true, r)
      | 'f' :: 'a' :: 'l' :: 's' :: 'e' :: r => some (.jbool false, r)
      | '"' :: r =>
          match parseStrRest (r.length + 1) r [] with
          | some (s, r2) => some (.jstr s, r2)
          | none => none
      | '[' :: r =>
          (match skipWs r with
            | ']' :: r2 => some (.jarr [], r2)
            | _ => parseElems f r [])
      | '\x7b' :: r =>
          (match skipWs r with
            | '\x7d' :: r2 => some (.jobj [], r2)
            | _ => parseFields f r [])
      | l2 =>
          match parseNum l2 with
          | some (lex, r2) => some (.jnum lex, r2)
          | none => none

/-- The elements of a JSON array after `[` (at least one element),
accumulated in reverse. -/
def parseElems (fuel : Nat) (l : List Char) (acc : List Json) :
    Option (Json × List Char) :=
  match fuel with
  | 0 => none
  | f + 1 =>
      match parseVal f l with
      | none => none
      | some (v, r) =>
          match skipWs r with
          | ',' :: r2 => parseElems f r2 (v :: acc)
          | ']' :: r2 => some (.jarr (v :: acc).reverse, r2)
          | _ => none

/-- The members of a JSON object after an opening brace (at least one
member), accumulated in reverse. -/
def parseFields (fuel : Nat) (l : List Char) (acc : List (String × Json)) :
    Option (Json × List Char) :=
  match fuel with
  | 0 => none
  | f + 1 =>
      match skipWs l with
      | '"' :: r =>
          match parseStrRest (r.length + 1) r [] with
          | none => none
          | some (k, r2) =>
              match skipWs r2 with
              | ':' :: r3 =>
                  match parseVal f r3 with
                  | none => none
                  | some (v, r4) =>
                      match skipWs r4 with
                      | ',' :: r5 => parseFields f r5 ((k, v) :: acc)
                      | '\x7d' :: r5 => some (.jobj ((k, v) :: acc).reverse, r5)
                      | _ => none
              | _ => none
      | _ => none

end

/-- `JSON.parse` of a whole text: one value, with only whitespace after it. -/
def jsonParse (s : String) : Option Json :=
  match parseVal (2 * s.data.length + 4) s.data with
  | some (j, rest) => if skipWs rest = [] then some j else none
  | none => none

/-- Property lookup on a parsed JSON object: `JSON.parse` keeps the last of
duplicate keys, so the fold keeps the last binding. -/
def jlookupLast (k : String) (fields : List (String × Json)) : Option Json :=
  fields.foldl (fun acc kv => if kv.1 = k then some kv.2 else acc) none

/-- Whether the mantissa of a number lexeme is all zeros (the number is
`0`, which is falsy). -/
def numIsZero (lex : String) : Bool :=
  (lex.data.takeWhile (fun c => ¬(c = 'e' ∨ c = 'E'))).all
    (fun c => ¬isDig c ∨ c = '0')

/-- JavaScript truthiness of a parsed JSON value (`if (jsonData.response)`). -/
def jsTruthy : Json → Bool
  | .jnull => false
  | .jbool b => b
  | .jstr s => s ≠ ""
  | .jnum lex => ¬numIsZero lex
  | .jarr _ => true
  | .jobj _ => true

/-- JavaScript string coercion of a parsed JSON value, as applied by
`responseText += jsonData.response`.  The `response` values this system
emits are strings, where the coercion is the identity; for the remaining
shapes the model keeps a fixed approximation of `ToString`. -/
def jsToString : Json → String
  | .jstr s => s
  | .jnum lex => lex
  | .jbool b => if b then "true" else "false"
  | .jnull => "null"
  | .jarr _ => ""
  | .jobj _ => "[object Object]"

/-- One line of the stream-consumer loop in `sendMessage` (`chat.js`):
`JSON.parse` the line; parse failures are caught and discarded; when the
parsed value's `response` property is truthy, its text is appended to the
accumulator. -/
def processChunkLine (acc : String) (line : String) : String :=
  match jsonParse line with
  | none => acc
  | some j =>
      match j with
      | .jobj fields =>
          match jlookupLast "response" fields with
          | some v => if jsTruthy v then acc ++ jsToString v else acc
          | none => acc
      | _ => acc

/-- Helper for `splitNl`: splits on newline characters, carrying the
current segment reversed. -/
def splitLinesAux : List Char → List Char → List String
  | [], acc => [String.mk acc.reverse]
  | '\n' :: rest, acc => String.mk acc.reverse :: splitLinesAux rest []
  | c :: rest, acc => splitLinesAux rest (c :: acc)

/-- `chunk.split("\n")` from JavaScript: the segments between newline
characters, including empty leading/trailing segments. -/
def splitNl (s : String) : List String :=
  splitLinesAux s.data []

/-- The client stream consumer of `sendMessage` (`chat.js`): each read's
decoded text is split on newlines and every line processed independently;
`reads` are the decoded texts of the successive reads.  The function is
total: no input makes it crash. -/
def consumeReads (reads : List String) : String :=
  reads.foldl (fun acc chunk => (splitNl chunk).foldl processChunkLine acc) ""

/-- The apostrophe character (the fifth pattern of `escapeHtml`). -/
def aposChar : Char := Char.ofNat 39

/-- `replaceAll` with a single-character pattern, as used by `escapeHtml` in
`chat.js` (each of its five patterns is one character). -/
def replaceAllChar (p : Char) (rep : List Char) (l : List Char) : List Char :=
  l.flatMap (fun c => if c = p then rep else [c])

/-- `escapeHtml` from `chat.js`: the chained `replaceAll` calls, `&` first,
then `<`, `>`, `"`, `'`. -/
def escapeHtml (l : List Char) : List Char :=
  replaceAllChar aposChar "&#39;".data
    (replaceAllChar '"' "&quot;".data
      (replaceAllChar '>' "&gt;".data
        (replaceAllChar '<' "&lt;".data
          (replaceAllChar '&' "&amp;".data l))))

/-- JavaScript's `\s` character class (whitespace, including NBSP and the
Unicode space separators). -/
def isWsJs (c : Char) : Bool :=
  c = ' ' || c = '\t' || c = '\n' || c = '\r' ||
  c = Char.ofNat 0x0b || c = Char.ofNat 0x0c || c = Char.ofNat 0xa0 ||
  c = Char.ofNat 0x1680 ||
  (Char.ofNat 0x2000 ≤ c && c ≤ Char.ofNat 0x200a) ||
  c = Char.ofNat 0x2028 || c = Char.ofNat 0x2029 || c = Char.ofNat 0x202f ||
  c = Char.ofNat 0x205f || c = Char.ofNat 0x3000 || c = Char.ofNat 0xfeff

/-- The stop set `[^\s<)]` of the URL and `www.` host patterns. -/
def isUrlStop (c : Char) : Bool :=
  isWsJs c || c = '<' || c = ')'

/-- Match of `https?:\/\/[^\s<)]+` at the head of the input: the captured
URL and the unconsumed rest. -/
def tryUrl : List Char → Option (List Char × List Char)
  | 'h' :: 't' :: 't' :: 'p' :: 's' :: ':' :: '/' :: '/' :: r =>
      if r.takeWhile (fun c => ¬isUrlStop c) = [] then none
      else some ("https://".data ++ r.takeWhile (fun c => ¬isUrlStop c),
        r.drop (r.takeWhile (fun c => ¬isUrlStop c)).length)
  | 'h' :: 't' :: 't' :: 'p' :: ':' :: '/' :: '/' :: r =>
      if r.takeWhile (fun c => ¬isUrlStop c) = [] then none
      else some ("http://".data ++ r.takeWhile (fun c => ¬isUrlStop c),
        r.drop (r.takeWhile (fun c => ¬isUrlStop c)).length)
  | _ => none

/-- The anchor markup emitted by the first pass of `linkify`. -/
def anchorA (url : List Char) : List Char :=
  "<a href=\"".data ++ url ++
    "\" target=\"_blank\" rel=\"noopener noreferrer\">".data ++ url ++ "</a>".data

/-- First `linkify` pass: `escaped.replace(/@?(https?:\/\/[^\s<)]+)/g, ...)`,
as a left-to-right scan; a match (with its optional leading `@`, which the
replacement drops) is replaced by `anchorA` and scanning resumes after it. -/
def pass1F : Nat → List Char → List Char
  | 0, l => l
  | _ + 1, [] => []
  | f + 1, c :: rest =>
      if c = '@' then
        match tryUrl rest with
        | some (url, rem) => anchorA url ++ pass1F f rem
        | none => c :: pass1F f rest
      else
        match tryUrl (c :: rest) with
        | some (url, rem) => anchorA url ++ pass1F f rem
        | none => c :: pass1F f rest

/-- The `\w` class `[A-Za-z0-9_]`. -/
def isWordChar (c : Char) : Bool :=
  ('a' ≤ c && c ≤ 'z') || ('A' ≤ c && c ≤ 'Z') || isDig c || c = '_'

/-- The `[^\w@]` class of the second pass's first group. -/
def isP1 (c : Char) : Bool :=
  ¬(isWordChar c || c = '@')

/-- Match of `www\.[^\s<)]+` at the head of the input. -/
def tryWww : List Char → Option (List Char × List Char)
  | 'w' :: 'w' :: 'w' :: '.' :: r =>
      if r.takeWhile (fun c => ¬isUrlStop c) = [] then none
      else some ("www.".data ++ r.takeWhile (fun c => ¬isUrlStop c),
        r.drop (r.takeWhile (fun c => ¬isUrlStop c)).length)
  | _ => none

/-- The anchor markup emitted by the `www.` pass of `linkify`. -/
def anchorW (host : List Char) : List Char :=
  "<a href=\"https://".data ++ host ++
    "\" target=\"_blank\" rel=\"noopener noreferrer\">".data ++ host ++ "</a>".data

/-- Second `linkify` pass: `html.replace(/(^|[^\w@])(www\.[^\s<)]+)/g, ...)`.
At the very start (`atStart`) the `^` alternative is tried first; otherwise
a match consumes one `[^\w@]` character `p1` (kept in the replacement, as
`${p1}<a ...>`) followed by the host. -/
def pass2F : Nat → Bool → List Char → List Char
  | 0, _, l => l
  | _ + 1, _, [] => []
  | f + 1, atStart, c :: rest =>
      if atStart then
        match tryWww (c :: rest) with
        | some (host, rem) => anchorW host ++ pass2F f false rem
        | none =>
            if isP1 c then
              match tryWww rest with
              | some (host, rem) => c :: (anchorW host ++ pass2F f false rem)
              | none => c :: pass2F f false rest
            else c :: pass2F f false rest
      else
        if isP1 c then
          match tryWww rest with
          | some (host, rem) => c :: (anchorW host ++ pass2F f false rem)
          | none => c :: pass2F f false rest
        else c :: pass2F f false rest

/-- ASCII letter. -/
def isAsciiAlpha (c : Char) : Bool :=
  ('a' ≤ c && c ≤ 'z') || ('A' ≤ c && c ≤ 'Z')

/-- ASCII letter or digit. -/
def isAsciiAlphaNum (c : Char) : Bool :=
  isAsciiAlpha c || isDig c

/-- The email local-part class `[a-zA-Z0-9._%+-]`. -/
def isEmailLocal (c : Char) : Bool :=
  isAsciiAlphaNum c || c = '.' || c = '_' || c = '%' || c = '+' || c = '-'

/-- The email domain class `[a-zA-Z0-9.-]`. -/
def isEmailDomain (c : Char) : Bool :=
  isAsciiAlphaNum c || c = '.' || c = '-'

/-- For the domain run `dom`: when a dot at position `j ≥ 1` is followed by
at least two letters, the length of the letter run after it. -/
def validTldAt (dom : List Char) (j : Nat) : Option Nat :=
  if j = 0 then none
  else match dom.drop j with
    | '.' :: r =>
        let run := r.takeWhile isAsciiAlpha
        if 2 ≤ run.length then some run.length else none
    | _ => none

/-- The greedy backtracking of `[a-zA-Z0-9.-]+\.[a-zA-Z]{2,}`: the largest
dot position in the domain run at which the pattern can finish, with the
length of its letter run. -/
def bestTld (dom : List Char) : Option (Nat × Nat) :=
  (List.range dom.length).foldl
    (fun best j =>
      match validTldAt dom j with
      | some a => some (j, a)
      | none => best) none

/-- Match of `[a-zA-Z0-9._%+-]+@[a-zA-Z0-9.-]+\.[a-zA-Z]{2,}` at the head of
the input. -/
def tryEmail (l : List Char) : Option (List Char × List Char) :=
  if l.takeWhile isEmailLocal = [] then none
  else match l.drop (l.takeWhile isEmailLocal).length with
    | '@' :: r2 =>
        (match bestTld (r2.takeWhile isEmailDomain) with
          | some (j, a) =>
              some (l.takeWhile isEmailLocal ++
                  '@' :: (r2.takeWhile isEmailDomain).take (j + 1 + a),
                r2.drop (j + 1 + a))
          | none => none)
    | _ => none

/-- The anchor markup emitted by the email pass of `linkify`. -/
def anchorM (email : List Char) : List Char :=
  "<a href=\"mailto:".data ++ email ++ "\">".data ++ email ++ "</a>".data

/-- Third `linkify` pass: the email `replace`. -/
def pass3F : Nat → List Char → List Char
  | 0, l => l
  | _ + 1, [] => []
  | f + 1, c :: rest =>
      match tryEmail (c :: rest) with
      | some (email, rem) => anchorM email ++ pass3F f rem
      | none => c :: pass3F f rest

/-- First pass at full fuel (the fuel bound `length` is never exhausted,
since every step consumes at least one input character). -/
def pass1 (l : List Char) : List Char := pass1F l.length l

/-- Second pass at full fuel, starting with the `^` alternative enabled. -/
def pass2 (l : List Char) : List Char := pass2F l.length true l

/-- Third pass at full fuel. -/
def pass3 (l : List Char) : List Char := pass3F l.length l

/-- `linkify` from `chat.js` on character lists: escape, then the three
pattern passes. -/
def linkifyChars (l : List Char) : List Char :=
  pass3 (pass2 (pass1 (escapeHtml l)))

/-- `linkify` from `chat.js`. -/
def linkify (text : String) : String :=
  String.mk (linkifyChars text.data)

/-- `hasLtScript l` is true when somewhere in `l` a `<` is immediately
followed by `s` — the character pattern every occurrence of the substring
`<script>` begins with. -/
def hasLtScript : List Char → Bool
  | [] => false
  | c :: rest => (c = '<' ∧ rest.head? = some 's') || hasLtScript rest

/-! ## Theorems -/

/-- The working list after the baseline step equals `baseMsgs h ++ h`. -/
theorem baseStep_eq (h : List ChatMessage) :
    (if hasSystem h then h else ChatMessage.mk Role.system SYSTEM_PROMPT :: h) =
      baseMsgs h ++ h := by
  by_cases hs : hasSystem h <;> simp [baseMsgs, hs]

/-- Structure of the assembled list: the four optional layers, in the fixed
order retrieval, policy, resources, baseline, prepended to the untouched
history. -/
theorem assemble_decomp (h : List ChatMessage) (r : Option ResDoc)
    (d : Option Directives) (c : RagCap) :
    assemble h r d c =
      ragMsgs (latestUserContent (baseMsgs h ++ h)) c ++ policyMsgs d ++
        resMsgs (latestUserContent (baseMsgs h ++ h)) r ++ baseMsgs h ++ h := by
  simp only [assemble]
  rw [baseStep_eq]
  unfold ragMsgs policyMsgs resMsgs
  generalize latestUserContent (baseMsgs h ++ h) = lu
  repeat' split
  all_goals simp

/-- The retrieval layer is empty or one "AutoRAG context" system message. -/
theorem ragMsgs_cases (lu : String) (c : RagCap) :
    ragMsgs lu c = [] ∨
      ∃ s, ragMsgs lu c = [⟨Role.system, "AutoRAG context: " ++ s⟩] := by
  unfold ragMsgs
  rcases c with _ | f
  · exact Or.inl rfl
  · by_cases hlu : lu = ""
    · simp [hlu]
    · cases hf : f lu <;> simp [hlu, hf]

/-- The policy layer is empty or one system message carrying a compiled
policy of the supplied directives. -/
theorem policyMsgs_cases (d : Option Directives) :
    policyMsgs d = [] ∨
      ∃ dd p, d = some dd ∧ compileDirectives dd = some p ∧
        policyMsgs d = [⟨Role.system, p⟩] := by
  unfold policyMsgs
  rcases d with _ | dd
  · exact Or.inl rfl
  · cases hc : compileDirectives dd <;> simp [hc]

/-- The resources layer is empty or one "Learn It Live resources" system
message. -/
theorem resMsgs_cases (lu : String) (r : Option ResDoc) :
    resMsgs lu r = [] ∨
      ∃ s, resMsgs lu r =
        [⟨Role.system, "Learn It Live resources (selected): " ++ s⟩] := by
  unfold resMsgs
  rcases r with _ | rd
  · exact Or.inl rfl
  · cases hb : buildContextFromResources lu rd 5 400 <;> simp [hb]

/-- A leading system message does not change the latest user content. -/
theorem latestUserContent_systemCons (s : String) (h : List ChatMessage) :
    latestUserContent (⟨Role.system, s⟩ :: h) = latestUserContent h := by
  simp [latestUserContent]

/-- The latest user content is unchanged by the baseline step. -/
theorem latestUserContent_base (h : List ChatMessage) :
    latestUserContent (baseMsgs h ++ h) = latestUserContent h := by
  unfold baseMsgs
  by_cases hs : hasSystem h <;> simp [hs, latestUserContent]

/-- C1: for every request history and every combination of available context
layers, the assembled message list is retrieval context (if any), then the
policy (if any), then the resources context (if any), then the baseline
persona prompt (if added), followed by the original history as an unchanged
suffix; and when both resources and directives resolve (with no retrieval
and a history that already carries a system message) the result is exactly
`[policy, resources, ...original]`.  The directives layer is modelled from
the spec (§4.3/§4.4), being absent from `src/`. -/
theorem claim1_layer_order :
    (∀ (h : List ChatMessage) (r : Option ResDoc) (d : Option Directives)
        (c : RagCap),
      ∃ ragS polS resS baseS : List ChatMessage,
        assemble h r d c = ragS ++ polS ++ resS ++ baseS ++ h ∧
        ragS.length ≤ 1 ∧ polS.length ≤ 1 ∧ resS.length ≤ 1 ∧
        (∀ m ∈ ragS, m.role = Role.system ∧
          ∃ s, m.content = "AutoRAG context: " ++ s) ∧
        (∀ m ∈ polS, m.role = Role.system ∧
          ∃ dd, d = some dd ∧ compileDirectives dd = some m.content) ∧
        (∀ m ∈ resS, m.role = Role.system ∧
          ∃ s, m.content = "Learn It Live resources (selected): " ++ s) ∧
        baseS = (if hasSystem h then [] else [⟨Role.system, SYSTEM_PROMPT⟩])) ∧
    (∀ (h : List ChatMessage) (rd : ResDoc) (dd : Directives) (p s : String),
      hasSystem h = true →
      buildContextFromResources (latestUserContent h) rd 5 400 = some s →
      compileDirectives dd = some p →
      assemble h (some rd) (some dd) none =
        ⟨Role.system, p⟩ ::
          ⟨Role.system, "Learn It Live resources (selected): " ++ s⟩ :: h) := by
  constructor
  · intro h r d c
    refine ⟨ragMsgs (latestUserContent (baseMsgs h ++ h)) c, policyMsgs d,
      resMsgs (latestUserContent (baseMsgs h ++ h)) r, baseMsgs h,
      assemble_decomp h r d c, ?_, ?_, ?_, ?_, ?_, ?_, ?_⟩
    · rcases ragMsgs_cases (latestUserContent (baseMsgs h ++ h)) c with he | ⟨s, he⟩ <;>
        simp [he]
    · rcases policyMsgs_cases d with he | ⟨dd, p, _, _, he⟩ <;> simp [he]
    · rcases resMsgs_cases (latestUserContent (baseMsgs h ++ h)) r with he | ⟨s, he⟩ <;>
        simp [he]
    · intro m hm
      rcases ragMsgs_cases (latestUserContent (baseMsgs h ++ h)) c with he | ⟨s, he⟩ <;>
        rw [he] at hm
      · simp at hm
      · simp at hm
        subst hm
        exact ⟨rfl, s, rfl⟩
    · intro m hm
      rcases policyMsgs_cases d with he | ⟨dd, p, hd, hp, he⟩ <;> rw [he] at hm
      · simp at hm
      · simp at hm
        subst hm
        exact ⟨rfl, dd, hd, hp⟩
    · intro m hm
      rcases resMsgs_cases (latestUserContent (baseMsgs h ++ h)) r with he | ⟨s, he⟩ <;>
        rw [he] at hm
      · simp at hm
      · simp at hm
        subst hm
        exact ⟨rfl, s, rfl⟩
    · rfl
  · intro h rd dd p s hs hb hp
    have hd := assemble_decomp h (some rd) (some dd) none
    rw [latestUserContent_base] at hd
    unfold baseMsgs ragMsgs policyMsgs resMsgs at hd
    simp only [hs, if_true, hb, hp] at hd
    simpa using hd

/-- Witness for C1 at a concrete history, resources document and directives
document. -/
theorem claim1_layer_order_witness :
    assemble [⟨Role.system, "ops"⟩, ⟨Role.user, "hi"⟩]
        (some (ResDoc.obj none (some []))) (some [("tone", DirValue.text "kind")])
        none =
      ⟨Role.system, "Strict policy - follow these directives exactly:\ntone: kind"⟩ ::
        ⟨Role.system,
          "Learn It Live resources (selected): \x7b\"brand\":\"Lily Virtual Support\",\"selected_faq\":[]\x7d"⟩ ::
        [⟨Role.system, "ops"⟩, ⟨Role.user, "hi"⟩] :=
  claim1_layer_order.2 [⟨Role.system, "ops"⟩, ⟨Role.user, "hi"⟩]
    (ResDoc.obj none (some [])) [("tone", DirValue.text "kind")]
    "Strict policy - follow these directives exactly:\ntone: kind"
    "\x7b\"brand\":\"Lily Virtual Support\",\"selected_faq\":[]\x7d"
    (by decide) (by decide) (by decide)

/-- C9: the baseline persona prompt is prepended exactly when the incoming
history has no system message: with no optional layer available the result
on `[{user, "hi"}]` is exactly `[{system, baseline}, {user, "hi"}]`, and on
a history that already has a system message no baseline is added and the
length grows only by the number of activated optional layers. -/
theorem claim9_baseline_prompt :
    (∀ h : List ChatMessage, hasSystem h = false →
      assemble h none none none = ⟨Role.system, SYSTEM_PROMPT⟩ :: h) ∧
    (assemble [⟨Role.user, "hi"⟩] none none none =
      [⟨Role.system, SYSTEM_PROMPT⟩, ⟨Role.user, "hi"⟩]) ∧
    (∀ (h : List ChatMessage) (r : Option ResDoc) (d : Option Directives)
        (c : RagCap), hasSystem h = true →
      baseMsgs h = [] ∧
      (ragMsgs (latestUserContent h) c).length ≤ 1 ∧
      (policyMsgs d).length ≤ 1 ∧
      (resMsgs (latestUserContent h) r).length ≤ 1 ∧
      (assemble h r d c).length =
        h.length + ((ragMsgs (latestUserContent h) c).length +
          (policyMsgs d).length + (resMsgs (latestUserContent h) r).length)) := by
  refine ⟨?_, by set_option maxRecDepth 40000 in decide, ?_⟩
  · intro h hs
    rw [assemble_decomp]
    simp [ragMsgs, policyMsgs, resMsgs, baseMsgs, hs]
  · intro h r d c hs
    have hbase : baseMsgs h = [] := by simp [baseMsgs, hs]
    refine ⟨hbase, ?_, ?_, ?_, ?_⟩
    · rcases ragMsgs_cases (latestUserContent h) c with he | ⟨s, he⟩ <;> simp [he]
    · rcases policyMsgs_cases d with he | ⟨dd, p, _, _, he⟩ <;> simp [he]
    · rcases resMsgs_cases (latestUserContent h) r with he | ⟨s, he⟩ <;> simp [he]
    · rw [assemble_decomp, latestUserContent_base, hbase]
      simp [List.length_append]
      omega

/-- Witness for C9 on the history `[{user, "hi"}]`. -/
theorem claim9_baseline_prompt_witness :
    assemble [⟨Role.user, "hi"⟩] none none none =
      ⟨Role.system, SYSTEM_PROMPT⟩ :: [⟨Role.user, "hi"⟩] :=
  claim9_baseline_prompt.1 [⟨Role.user, "hi"⟩] (by decide)

/-- C10 counterexample: a body that parses as JSON (an object whose
`messages` value is present but not an array) still reaches the structured
error path — `messages.some` throws a `TypeError` inside the `try` — so
"only a body that fails to parse as JSON reaches the structured error path"
is false. -/
theorem claim10_counterexample :
    handleChatRequest (RequestBody.jsonObj MessagesField.nullOrNonArray)
        none none none = ChatResult.errorResponse ∧
    RequestBody.jsonObj MessagesField.nullOrNonArray ≠ RequestBody.malformed :=
  ⟨rfl, fun hcon => RequestBody.noConfusion hcon⟩

/-- C10 amended: a JSON object lacking a `messages` field proceeds with the
empty history (baseline prompt prepended — it ends up the last message of
the assembled list — and the model invoked); the structured error path is
reached by unparseable bodies, and also by JSON bodies whose `messages`
value is present but not an array and by the JSON text `null`, whose
runtime `TypeError`s land in the same catch. -/
theorem claim10_missing_messages :
    ∀ (r : Option ResDoc) (d : Option Directives) (c : RagCap),
      handleChatRequest (RequestBody.jsonObj MessagesField.missing) r d c =
        ChatResult.modelCall (assemble [] r d c) ∧
      (assemble [] r d c).getLast? = some ⟨Role.system, SYSTEM_PROMPT⟩ ∧
      (∀ ms, handleChatRequest (RequestBody.jsonObj (MessagesField.arr ms)) r d c =
        ChatResult.modelCall (assemble ms r d c)) ∧
      handleChatRequest RequestBody.malformed r d c = ChatResult.errorResponse ∧
      handleChatRequest RequestBody.jsonNull r d c = ChatResult.errorResponse ∧
      handleChatRequest (RequestBody.jsonObj MessagesField.nullOrNonArray) r d c =
        ChatResult.errorResponse := by
  intro r d c
  refine ⟨rfl, ?_, fun ms => rfl, rfl, rfl, rfl⟩
  have hshape : assemble [] r d c =
      (ragMsgs (latestUserContent (baseMsgs [] ++ [])) c ++ policyMsgs d ++
        resMsgs (latestUserContent (baseMsgs [] ++ [])) r) ++
        [⟨Role.system, SYSTEM_PROMPT⟩] := by
    rw [assemble_decomp]
    simp [baseMsgs, hasSystem]
  rw [hshape, List.getLast?_concat]

/-- The compact blob is never the empty string (it is a JSON object text). -/
theorem compactJson_ne_empty (b : String) (sel : List FaqEntry) :
    compactJson b sel ≠ "" := by
  intro he
  have hl := congrArg String.length he
  rw [compactJson] at hl
  simp only [String.length_append] at hl
  have h9 : ("\x7b\"brand\":" : String).length = 9 := by decide
  have h0 : ("" : String).length = 0 := rfl
  rw [h9, h0] at hl
  omega

/-- C5 counterexample: for a loaded knowledge document that is empty (an
object with an empty FAQ array), the assembler still prepends a resources
system message — the compact blob is the non-empty JSON text with an empty
`selected_faq` — so "an empty knowledge document never yields a resources
message" is false. -/
theorem claim5_counterexample :
    assemble [⟨Role.user, "hi"⟩] (some (ResDoc.obj none (some []))) none none =
      [⟨Role.system,
        "Learn It Live resources (selected): \x7b\"brand\":\"Lily Virtual Support\",\"selected_faq\":[]\x7d"⟩,
       ⟨Role.system, SYSTEM_PROMPT⟩, ⟨Role.user, "hi"⟩] := by
  set_option maxRecDepth 100000 in decide

/-- C5 amended: no resources message is prepended when the knowledge
document is absent or not an object; when the document loads as an object
the compact blob is always a non-empty JSON string and a resources system
message is always prepended, even for an empty document. -/
theorem claim5_resources_message :
    (∀ (h : List ChatMessage) (d : Option Directives) (c : RagCap),
      assemble h none d c =
        ragMsgs (latestUserContent (baseMsgs h ++ h)) c ++ policyMsgs d ++
          baseMsgs h ++ h) ∧
    (∀ lu : String, buildContextFromResources lu ResDoc.nonObject 5 400 = none) ∧
    (∀ (lu : String) (bn : Option String) (fq : Option (List FaqEntry)),
      ∃ s, buildContextFromResources lu (ResDoc.obj bn fq) 5 400 = some s ∧
        s ≠ "") ∧
    (∀ (h : List ChatMessage) (bn : Option String) (fq : Option (List FaqEntry))
        (d : Option Directives) (c : RagCap),
      ∃ s, ChatMessage.mk Role.system ("Learn It Live resources (selected): " ++ s) ∈
        assemble h (some (ResDoc.obj bn fq)) d c) := by
  refine ⟨?_, fun lu => rfl, ?_, ?_⟩
  · intro h d c
    rw [assemble_decomp]
    simp [resMsgs]
  · intro lu bn fq
    exact ⟨compactJson (brandOf bn) (selectedFaq lu (fq.getD []) 5 400), rfl,
      compactJson_ne_empty _ _⟩
  · intro h bn fq d c
    refine ⟨compactJson (brandOf bn)
      (selectedFaq (latestUserContent (baseMsgs h ++ h)) (fq.getD []) 5 400), ?_⟩
    rw [assemble_decomp]
    have hres : resMsgs (latestUserContent (baseMsgs h ++ h))
        (some (ResDoc.obj bn fq)) =
        [⟨Role.system, "Learn It Live resources (selected): " ++
          compactJson (brandOf bn)
            (selectedFaq (latestUserContent (baseMsgs h ++ h)) (fq.getD []) 5 400)⟩] := rfl
    rw [hres]
    simp

/-- The candidate set is never empty when the FAQ list is non-empty. -/
theorem selectCandidates_ne_nil (q : String) (faqs : List FaqEntry)
    (hne : faqs ≠ []) : selectCandidates q faqs ≠ [] := by
  simp only [selectCandidates]
  repeat' split
  all_goals first | exact hne | assumption

/-- Every candidate comes from the FAQ list. -/
theorem selectCandidates_subset (q : String) (faqs : List FaqEntry) :
    ∀ x ∈ selectCandidates q faqs, x ∈ faqs := by
  intro x hx
  simp only [selectCandidates] at hx
  repeat' split at hx
  all_goals first | exact hx | exact (List.mem_filter.mp hx).1

/-- Lowercasing the empty string gives the empty string. -/
theorem lowerStr_empty : lowerStr "" = "" := rfl

/-- C8: for a non-empty FAQ list the selector never returns an empty
result; when the query is empty or the substring filter selects nothing it
falls back to the whole FAQ list and returns its first `maxCount` entries in
original order (truncated); an empty result forces an empty input list. -/
theorem claim8_selector_fallback (userQuery : String) (faqs : List FaqEntry)
    (n mc : Nat) (hn : 0 < n) :
    (faqs ≠ [] → selectedFaq userQuery faqs n mc ≠ []) ∧
    (userQuery = "" →
      selectedFaq userQuery faqs n mc = (faqs.take n).map (truncEntry mc)) ∧
    (faqs.filter (faqFilterHit userQuery) = [] →
      selectedFaq userQuery faqs n mc = (faqs.take n).map (truncEntry mc)) ∧
    (selectedFaq userQuery faqs n mc = [] → faqs = []) := by
  have hmain : faqs ≠ [] → selectedFaq userQuery faqs n mc ≠ [] := by
    intro hne
    have hc := selectCandidates_ne_nil userQuery faqs hne
    simp only [selectedFaq, ne_eq, List.map_eq_nil_iff, List.take_eq_nil_iff]
    push_neg
    exact ⟨fun hz => absurd hz (Nat.pos_iff_ne_zero.mp hn), hc⟩
  refine ⟨hmain, ?_, ?_, ?_⟩
  · intro hq
    subst hq
    simp [selectedFaq, selectCandidates, lowerStr_empty, ite_self]
  · intro hfil
    by_cases hq : lowerStr userQuery = "" <;>
      simp [selectedFaq, selectCandidates, hq, hfil, ite_self]
  · intro hsel
    by_contra hne
    exact hmain hne hsel

/-- Witness for C8: a query matching nothing still selects the (truncated)
first entries of the full list. -/
theorem claim8_selector_fallback_witness :
    selectedFaq "zzz" [⟨"q1", "a1", none⟩] 5 400 ≠ [] :=
  (claim8_selector_fallback "zzz" [⟨"q1", "a1", none⟩] 5 400 (by decide)).1
    (by decide)

/-- C3: every selected entry is a source FAQ entry with its question and
URL kept verbatim and its answer passed through the truncation map; the
truncation map cuts an over-long answer to exactly the first
`maxAnswerChars` characters plus a single ellipsis character (total length
`maxAnswerChars + 1`) and leaves short answers unchanged. -/
theorem claim3_answer_truncation :
    (∀ (userQuery : String) (faqs : List FaqEntry) (n mc : Nat) (f : FaqEntry),
      f ∈ selectedFaq userQuery faqs n mc →
      ∃ g, g ∈ faqs ∧ f.q = g.q ∧ f.url = g.url ∧ f.a = truncAnswer mc g.a) ∧
    (∀ (mc : Nat) (a : String), mc < a.length →
      truncAnswer mc a = String.mk (a.data.take mc) ++ ellipsisStr ∧
      (truncAnswer mc a).length = mc + 1) ∧
    (∀ (mc : Nat) (a : String), a.length ≤ mc → truncAnswer mc a = a) := by
  refine ⟨?_, ?_, ?_⟩
  · intro userQuery faqs n mc f hf
    simp only [selectedFaq, List.mem_map] at hf
    obtain ⟨g, hg, hfg⟩ := hf
    have hg' : g ∈ selectCandidates userQuery faqs := List.mem_of_mem_take hg
    exact ⟨g, selectCandidates_subset userQuery faqs g hg', by rw [← hfg]; rfl,
      by rw [← hfg]; rfl, by rw [← hfg]; rfl⟩
  · intro mc a hlt
    have he : truncAnswer mc a = String.mk (a.data.take mc) ++ ellipsisStr := by
      simp [truncAnswer, hlt]
    refine ⟨he, ?_⟩
    rw [he]
    have h1 : (String.mk (a.data.take mc)).length = mc := by
      have hd : a.length = a.data.length := rfl
      simp only [String.length_mk, List.length_take]
      omega
    have h2 : ellipsisStr.length = 1 := rfl
    rw [String.length_append, h1, h2]
  · intro mc a hle
    simp [truncAnswer]
    omega

/-- Witness for C3: a 401-character answer is truncated to 400 characters
plus one ellipsis character. -/
theorem claim3_answer_truncation_witness :
    truncAnswer 400 (String.mk (List.replicate 401 'x')) =
      String.mk ((String.mk (List.replicate 401 'x')).data.take 400) ++
        ellipsisStr ∧
    (truncAnswer 400 (String.mk (List.replicate 401 'x'))).length = 401 :=
  claim3_answer_truncation.2.1 400 (String.mk (List.replicate 401 'x'))
    (by set_option maxRecDepth 10000 in decide)

/-- Lookup in a directives document is invariant under permutation of the
bindings when the keys are distinct. -/
theorem lookupField_perm (f : String) :
    ∀ {d1 d2 : Directives}, List.Perm d1 d2 → (d1.map Prod.fst).Nodup →
      lookupField f d1 = lookupField f d2 := by
  intro d1 d2 hp
  induction hp with
  | nil => intro _; rfl
  | cons x p ih =>
      intro hn
      rw [List.map_cons, List.nodup_cons] at hn
      simp only [lookupField]
      by_cases hk : x.1 = f <;> simp [hk, ih hn.2]
  | swap x y l =>
      intro hn
      rw [List.map_cons, List.map_cons, List.nodup_cons] at hn
      have hxy : y.1 ≠ x.1 := fun he => hn.1 (by rw [he]; exact List.mem_cons_self _ _)
      simp only [lookupField]
      by_cases hy : y.1 = f <;> by_cases hx : x.1 = f <;> simp [hx, hy]
      exact absurd (hy.trans hx.symm) hxy
  | trans p1 p2 ih1 ih2 =>
      intro hn
      have hnMid := ((p1.map Prod.fst).nodup_iff).mp hn
      exact (ih1 hn).trans (ih2 hnMid)

/-- C4: the compiled policy text is determined by the recognized fields'
values alone — permuting a duplicate-free directives document never changes
it (its lines follow the fixed recognized-field order, not the source key
order); it is absent exactly when no recognized field contributes a line;
any produced text starts with the fixed strict-policy header; and the
assembler prepends the compiled text as a system message when present.
The compiler is modelled from the spec (§4.3), being absent from `src/`. -/
theorem claim4_policy_compiler :
    (∀ d1 d2 : Directives, List.Perm d1 d2 → (d1.map Prod.fst).Nodup →
      compileDirectives d1 = compileDirectives d2) ∧
    (∀ d : Directives, compileDirectives d = none ↔
      recognizedFields.filterMap (fieldLine d) = []) ∧
    (∀ (d : Directives) (t : String), compileDirectives d = some t →
      ∃ rest, t = policyHeader ++ rest) ∧
    (∀ (h : List ChatMessage) (r : Option ResDoc) (dd : Directives)
        (c : RagCap) (p : String), compileDirectives dd = some p →
      ChatMessage.mk Role.system p ∈ assemble h r (some dd) c) := by
  refine ⟨?_, ?_, ?_, ?_⟩
  · intro d1 d2 hp hn
    have hfl : ∀ fl, fieldLine d1 fl = fieldLine d2 fl := by
      intro fl
      unfold fieldLine
      rw [lookupField_perm fl hp hn]
    simp only [compileDirectives]
    rw [show recognizedFields.filterMap (fieldLine d1) =
      recognizedFields.filterMap (fieldLine d2) from by
        exact congrArg (List.filterMap · recognizedFields) (funext hfl)]
  · intro d
    simp only [compileDirectives]
    by_cases hl : recognizedFields.filterMap (fieldLine d) = [] <;> simp [hl]
  · intro d t ht
    simp only [compileDirectives] at ht
    by_cases hl : recognizedFields.filterMap (fieldLine d) = []
    · rw [if_pos hl] at ht
      exact absurd ht (by simp)
    · rw [if_neg hl] at ht
      exact ⟨_, (Option.some.inj ht).symm⟩
  · intro h r dd c p hp
    rw [assemble_decomp]
    have hpol : policyMsgs (some dd) = [⟨Role.system, p⟩] := by
      simp [policyMsgs, hp]
    rw [hpol]
    simp

/-- Witness for C4: two orderings of the same two-field document compile to
the same text, whose line order follows the fixed field order. -/
theorem claim4_policy_compiler_witness :
    compileDirectives
        [("tone", DirValue.text "kind"), ("style", DirValue.text "brief")] =
      compileDirectives
        [("style", DirValue.text "brief"), ("tone", DirValue.text "kind")] :=
  claim4_policy_compiler.1
    [("tone", DirValue.text "kind"), ("style", DirValue.text "brief")]
    [("style", DirValue.text "brief"), ("tone", DirValue.text "kind")]
    (List.Perm.swap ("style", DirValue.text "brief")
      ("tone", DirValue.text "kind") [])
    (by decide)

/-- C2 counterexample: the split structured line is not reassembled — after
both reads the accumulated text is empty, not "Hello"; each fragment fails
`JSON.parse` on its own and is discarded, and nothing carries over between
reads. -/
theorem claim2_counterexample :
    consumeReads ["\x7b\"response\":\"Hel", "lo\"\x7d\n"] = "" ∧
    consumeReads ["\x7b\"response\":\"Hel", "lo\"\x7d\n"] ≠ "Hello" := by
  constructor
  · rfl
  · decide

/-- C2 amended: fed the split reads the consumer does not crash (it is a
total function) and renders nothing — neither after the first read nor
after the second, the split line being silently discarded — while the same
line arriving unsplit in one read renders exactly "Hello". -/
theorem claim2_split_line_discarded :
    consumeReads ["\x7b\"response\":\"Hel"] = "" ∧
    consumeReads ["\x7b\"response\":\"Hel", "lo\"\x7d\n"] = "" ∧
    consumeReads ["\x7b\"response\":\"Hello\"\x7d\n"] = "Hello" :=
  ⟨rfl, rfl, rfl⟩

/-- Unfolding `hasLtScript` over `::` as a conjunction of the window check
and the tail check. -/
theorem hasLtScript_cons_false (c : Char) (rest : List Char) :
    hasLtScript (c :: rest) = false ↔
      (¬(c = '<' ∧ rest.head? = some 's') ∧ hasLtScript rest = false) := by
  simp [hasLtScript]

/-- `hasLtScript` over an append: a window inside either part, or the
boundary window. -/
theorem hasLtScript_append (a b : List Char) :
    hasLtScript (a ++ b) = true ↔
      (hasLtScript a = true ∨ hasLtScript b = true ∨
        (a.getLast? = some '<' ∧ b.head? = some 's')) := by
  induction a with
  | nil => simp [hasLtScript]
  | cons c rest ih =>
      cases rest with
      | nil =>
          cases b with
          | nil => simp [hasLtScript]
          | cons b0 bt =>
              simp [hasLtScript]
              tauto
      | cons r0 rt =>
          have h1 : hasLtScript ((c :: r0 :: rt) ++ b) =
              ((decide (c = '<' ∧ ((r0 :: rt) ++ b).head? = some 's')) ||
                hasLtScript ((r0 :: rt) ++ b)) := rfl
          have h2 : hasLtScript (c :: r0 :: rt) =
              ((decide (c = '<' ∧ (r0 :: rt).head? = some 's')) ||
                hasLtScript (r0 :: rt)) := rfl
          rw [h1, h2, List.getLast?_cons_cons]
          simp only [Bool.or_eq_true, decide_eq_true_eq, ih,
            List.cons_append, List.head?_cons]
          tauto

/-- A list without `<` has no `<s` window. -/
theorem hasLtScript_of_not_mem (l : List Char) (hl : '<' ∉ l) :
    hasLtScript l = false := by
  induction l with
  | nil => rfl
  | cons c rest ih =>
      have hc : ¬c = '<' := fun he => hl (he ▸ List.mem_cons_self c rest)
      rw [hasLtScript_cons_false]
      exact ⟨fun hp => hc hp.1, ih fun hm => hl (List.mem_cons_of_mem c hm)⟩

/-- Dropping a prefix cannot create a `<s` window. -/
theorem hasLtScript_drop (n : Nat) (l : List Char)
    (h : hasLtScript l = false) : hasLtScript (l.drop n) = false := by
  induction n generalizing l with
  | zero => simpa using h
  | succ n ih =>
      cases l with
      | nil => simpa using h
      | cons c rest =>
          have ht := ((hasLtScript_cons_false c rest).mp h).2
          simpa using ih rest ht

/-- Assembling two window-free lists whose boundary is safe. -/
theorem hasLtScript_append_false (a b : List Char)
    (ha : hasLtScript a = false) (hb : hasLtScript b = false)
    (hbd : a.getLast? ≠ some '<' ∨ b.head? ≠ some 's') :
    hasLtScript (a ++ b) = false := by
  rw [Bool.eq_false_iff]
  intro h
  rcases (hasLtScript_append a b).mp h with h1 | h1 | ⟨h1, h2⟩
  · rw [ha] at h1; exact Bool.false_ne_true h1
  · rw [hb] at h1; exact Bool.false_ne_true h1
  · rcases hbd with hbd | hbd
    · exact hbd h1
    · exact hbd h2

/-- The last character of a list ending in a non-empty literal. -/
theorem getLast?_append_right (l1 l2 : List Char) (c : Char)
    (h : l2.getLast? = some c) : (l1 ++ l2).getLast? = some c := by
  rw [List.getLast?_append, h]
  rfl

/-- The three matchers only capture text without `<`, and leave a suffix of
the input as the rest.  First, the URL matcher. -/
theorem tryUrl_sub (l url rem : List Char) (h : tryUrl l = some (url, rem)) :
    '<' ∉ url ∧ ∃ k, rem = l.drop k := by
  unfold tryUrl at h
  split at h
  case _ r =>
    split at h
    · exact absurd h (by simp)
    · rw [Option.some.injEq, Prod.mk.injEq] at h
      obtain ⟨hu, hr⟩ := h
      constructor
      · intro hm
        rw [← hu] at hm
        rcases List.mem_append.mp hm with hm | hm
        · exact absurd hm (by decide)
        · have := List.mem_takeWhile_imp hm
          simp [isUrlStop] at this
      · exact ⟨(r.takeWhile (fun c => ¬isUrlStop c)).length + 8, hr.symm⟩
  case _ r =>
    split at h
    · exact absurd h (by simp)
    · rw [Option.some.injEq, Prod.mk.injEq] at h
      obtain ⟨hu, hr⟩ := h
      constructor
      · intro hm
        rw [← hu] at hm
        rcases List.mem_append.mp hm with hm | hm
        · exact absurd hm (by decide)
        · have := List.mem_takeWhile_imp hm
          simp [isUrlStop] at this
      · exact ⟨(r.takeWhile (fun c => ¬isUrlStop c)).length + 7, hr.symm⟩
  case _ =>
    exact absurd h (by simp)

/-- The `www.` matcher captures no `<` and leaves a suffix. -/
theorem tryWww_sub (l host rem : List Char) (h : tryWww l = some (host, rem)) :
    '<' ∉ host ∧ ∃ k, rem = l.drop k := by
  unfold tryWww at h
  split at h
  case _ r =>
    split at h
    · exact absurd h (by simp)
    · rw [Option.some.injEq, Prod.mk.injEq] at h
      obtain ⟨hu, hr⟩ := h
      constructor
      · intro hm
        rw [← hu] at hm
        rcases List.mem_append.mp hm with hm | hm
        · exact absurd hm (by decide)
        · have := List.mem_takeWhile_imp hm
          simp [isUrlStop] at this
      · exact ⟨(r.takeWhile (fun c => ¬isUrlStop c)).length + 4, hr.symm⟩
  case _ =>
    exact absurd h (by simp)

/-- The email matcher captures no `<` and leaves a suffix. -/
theorem tryEmail_sub (l email rem : List Char)
    (h : tryEmail l = some (email, rem)) :
    '<' ∉ email ∧ ∃ k, rem = l.drop k := by
  unfold tryEmail at h
  split at h
  · exact absurd h (by simp)
  · split at h
    case _ r2 heq =>
      cases hbt : bestTld (r2.takeWhile isEmailDomain) with
      | none =>
          rw [hbt] at h
          exact absurd h (by simp)
      | some pr =>
          obtain ⟨j, a⟩ := pr
          rw [hbt] at h
          simp only [Option.some.injEq, Prod.mk.injEq] at h
          obtain ⟨hu, hr⟩ := h
          constructor
          · intro hm
            rw [← hu] at hm
            rcases List.mem_append.mp hm with hm | hm
            · have := List.mem_takeWhile_imp hm
              simp [isEmailLocal, isAsciiAlphaNum, isAsciiAlpha, isDig] at this
            · rcases List.mem_cons.mp hm with hm | hm
              · exact absurd hm (by decide)
              · have := List.mem_takeWhile_imp (List.take_subset _ _ hm)
                simp [isEmailDomain, isAsciiAlphaNum, isAsciiAlpha, isDig] at this
          · refine ⟨(l.takeWhile isEmailLocal).length + (j + 1 + a + 1), ?_⟩
            rw [← List.drop_drop, heq]
            exact hr.symm
    case _ => exact absurd h (by simp)

/-- The anchor emitted by the URL pass has no `<s` window when the URL has
no `<`. -/
theorem anchorA_no_ltS (u : List Char) (hu : '<' ∉ u) :
    hasLtScript (anchorA u) = false := by
  have hu' : hasLtScript u = false := hasLtScript_of_not_mem u hu
  have h1 : hasLtScript ("<a href=\"".data ++ u) = false :=
    hasLtScript_append_false _ _ (by decide) hu' (Or.inl (by decide))
  have h2 : hasLtScript (("<a href=\"".data ++ u) ++
      "\" target=\"_blank\" rel=\"noopener noreferrer\">".data) = false :=
    hasLtScript_append_false _ _ h1 (by decide) (Or.inr (by decide))
  have h3 : hasLtScript ((("<a href=\"".data ++ u) ++
      "\" target=\"_blank\" rel=\"noopener noreferrer\">".data) ++ u) = false :=
    hasLtScript_append_false _ _ h2 hu'
      (Or.inl (by rw [getLast?_append_right _ _ '>' (by decide)]; decide))
  exact hasLtScript_append_false _ _ h3 (by decide) (Or.inr (by decide))

/-- The anchor emitted by the `www.` pass has no `<s` window when the host
has no `<`. -/
theorem anchorW_no_ltS (u : List Char) (hu : '<' ∉ u) :
    hasLtScript (anchorW u) = false := by
  have hu' : hasLtScript u = false := hasLtScript_of_not_mem u hu
  have h1 : hasLtScript ("<a href=\"https://".data ++ u) = false :=
    hasLtScript_append_false _ _ (by decide) hu' (Or.inl (by decide))
  have h2 : hasLtScript (("<a href=\"https://".data ++ u) ++
      "\" target=\"_blank\" rel=\"noopener noreferrer\">".data) = false :=
    hasLtScript_append_false _ _ h1 (by decide) (Or.inr (by decide))
  have h3 : hasLtScript ((("<a href=\"https://".data ++ u) ++
      "\" target=\"_blank\" rel=\"noopener noreferrer\">".data) ++ u) = false :=
    hasLtScript_append_false _ _ h2 hu'
      (Or.inl (by rw [getLast?_append_right _ _ '>' (by decide)]; decide))
  exact hasLtScript_append_false _ _ h3 (by decide) (Or.inr (by decide))

/-- The anchor emitted by the email pass has no `<s` window when the email
has no `<`. -/
theorem anchorM_no_ltS (u : List Char) (hu : '<' ∉ u) :
    hasLtScript (anchorM u) = false := by
  have hu' : hasLtScript u = false := hasLtScript_of_not_mem u hu
  have h1 : hasLtScript ("<a href=\"mailto:".data ++ u) = false :=
    hasLtScript_append_false _ _ (by decide) hu' (Or.inl (by decide))
  have h2 : hasLtScript (("<a href=\"mailto:".data ++ u) ++ "\">".data) = false :=
    hasLtScript_append_false _ _ h1 (by decide) (Or.inr (by decide))
  have h3 : hasLtScript ((("<a href=\"mailto:".data ++ u) ++ "\">".data) ++ u) = false :=
    hasLtScript_append_false _ _ h2 hu'
      (Or.inl (by rw [getLast?_append_right _ _ '>' (by decide)]; decide))
  exact hasLtScript_append_false _ _ h3 (by decide) (Or.inr (by decide))

/-- The URL anchor ends in `>`. -/
theorem anchorA_getLast (u : List Char) : (anchorA u).getLast? = some '>' :=
  getLast?_append_right _ _ '>' (by decide)

/-- The `www.` anchor ends in `>`. -/
theorem anchorW_getLast (u : List Char) : (anchorW u).getLast? = some '>' :=
  getLast?_append_right _ _ '>' (by decide)

/-- The email anchor ends in `>`. -/
theorem anchorM_getLast (u : List Char) : (anchorM u).getLast? = some '>' :=
  getLast?_append_right _ _ '>' (by decide)

/-- The second pass only ever changes the head of the text to `<`. -/
theorem pass2F_head (f : Nat) (b : Bool) (l : List Char) (x : Char)
    (hx : (pass2F f b l).head? = some x) : x = '<' ∨ l.head? = some x := by
  cases f with
  | zero => exact Or.inr hx
  | succ f =>
      cases l with
      | nil => exact absurd hx (by simp [pass2F])
      | cons c rest =>
          cases b with
          | true =>
              simp only [pass2F, if_true] at hx
              cases htw : tryWww (c :: rest) with
              | some pr =>
                  obtain ⟨host, rem⟩ := pr
                  rw [htw] at hx
                  simp only at hx
                  left
                  have : (anchorW host ++ pass2F f false rem).head? = some '<' := rfl
                  rw [this] at hx
                  exact (Option.some.inj hx).symm
              | none =>
                  rw [htw] at hx
                  simp only at hx
                  by_cases hp : isP1 c = true
                  · rw [if_pos hp] at hx
                    cases htw2 : tryWww rest with
                    | some pr =>
                        obtain ⟨host, rem⟩ := pr
                        rw [htw2] at hx
                        simp only [List.head?_cons] at hx
                        exact Or.inr (by simpa using hx)
                    | none =>
                        rw [htw2] at hx
                        simp only [List.head?_cons] at hx
                        exact Or.inr (by simpa using hx)
                  · rw [if_neg hp] at hx
                    simp only [List.head?_cons] at hx
                    exact Or.inr (by simpa using hx)
          | false =>
              simp only [pass2F, if_false] at hx
              by_cases hp : isP1 c = true
              · rw [if_pos hp] at hx
                cases htw2 : tryWww rest with
                | some pr =>
                    obtain ⟨host, rem⟩ := pr
                    rw [htw2] at hx
                    simp only [List.head?_cons] at hx
                    exact Or.inr (by simpa using hx)
                | none =>
                    rw [htw2] at hx
                    simp only [List.head?_cons] at hx
                    exact Or.inr (by simpa using hx)
              · rw [if_neg hp] at hx
                exact Or.inr (by simpa using hx)

/-- The third pass only ever changes the head of the text to `<`. -/
theorem pass3F_head (f : Nat) (l : List Char) (x : Char)
    (hx : (pass3F f l).head? = some x) : x = '<' ∨ l.head? = some x := by
  cases f with
  | zero => exact Or.inr hx
  | succ f =>
      cases l with
      | nil => exact absurd hx (by simp [pass3F])
      | cons c rest =>
          simp only [pass3F] at hx
          cases hte : tryEmail (c :: rest) with
          | some pr =>
              obtain ⟨email, rem⟩ := pr
              rw [hte] at hx
              simp only at hx
              left
              have : (anchorM email ++ pass3F f rem).head? = some '<' := rfl
              rw [this] at hx
              exact (Option.some.inj hx).symm
          | none =>
              rw [hte] at hx
              simp only [List.head?_cons] at hx
              exact Or.inr (by simpa using hx)

/-- The URL pass of `linkify` never produces a `<s` window from `<`-free
input (the escaped text). -/
theorem pass1F_no_ltS (f : Nat) (l : List Char) (hl : '<' ∉ l) :
    hasLtScript (pass1F f l) = false := by
  induction f generalizing l with
  | zero => exact hasLtScript_of_not_mem l hl
  | succ f ih =>
      cases l with
      | nil => rfl
      | cons c rest =>
          have hrest : '<' ∉ rest := fun hm => hl (List.mem_cons_of_mem c hm)
          have hc : c ≠ '<' := fun he => hl (he ▸ List.mem_cons_self c rest)
          simp only [pass1F]
          by_cases hat : c = '@'
          · rw [if_pos hat]
            cases htu : tryUrl rest with
            | some pr =>
                obtain ⟨url, rem⟩ := pr
                obtain ⟨hurl, k, hrem⟩ := tryUrl_sub rest url rem htu
                have hremf : '<' ∉ rem := fun hm =>
                  hrest (List.drop_subset k rest (hrem ▸ hm))
                exact hasLtScript_append_false _ _ (anchorA_no_ltS url hurl)
                  (ih rem hremf) (Or.inl (by rw [anchorA_getLast]; decide))
            | none =>
                rw [hasLtScript_cons_false]
                exact ⟨fun hp => hc hp.1, ih rest hrest⟩
          · rw [if_neg hat]
            cases htu : tryUrl (c :: rest) with
            | some pr =>
                obtain ⟨url, rem⟩ := pr
                obtain ⟨hurl, k, hrem⟩ := tryUrl_sub (c :: rest) url rem htu
                have hremf : '<' ∉ rem := fun hm =>
                  hl (List.drop_subset k (c :: rest) (hrem ▸ hm))
                exact hasLtScript_append_false _ _ (anchorA_no_ltS url hurl)
                  (ih rem hremf) (Or.inl (by rw [anchorA_getLast]; decide))
            | none =>
                rw [hasLtScript_cons_false]
                exact ⟨fun hp => hc hp.1, ih rest hrest⟩

/-- The `www.` pass of `linkify` never creates a `<s` window. -/
theorem pass2F_no_ltS (f : Nat) (b : Bool) (l : List Char)
    (hl : hasLtScript l = false) : hasLtScript (pass2F f b l) = false := by
  induction f generalizing b l with
  | zero => exact hl
  | succ f ih =>
      cases l with
      | nil => rfl
      | cons c rest =>
          obtain ⟨hpair, hrest⟩ := (hasLtScript_cons_false c rest).mp hl
          have hanchor : ∀ host rem : List Char, '<' ∉ host →
              hasLtScript rem = false →
              hasLtScript (anchorW host ++ pass2F f false rem) = false := by
            intro host rem hh hr
            exact hasLtScript_append_false _ _ (anchorW_no_ltS host hh)
              (ih false rem hr) (Or.inl (by rw [anchorW_getLast]; decide))
          have hcopy : ∀ b' : Bool, hasLtScript (c :: pass2F f b' rest) = false := by
            intro b'
            rw [hasLtScript_cons_false]
            refine ⟨?_, ih b' rest hrest⟩
            rintro ⟨hc, hh⟩
            rcases pass2F_head f b' rest 's' hh with he | he
            · exact absurd he (by decide)
            · exact hpair ⟨hc, he⟩
          have hstep : hasLtScript
              (match tryWww rest with
                | some (host, rem) => c :: (anchorW host ++ pass2F f false rem)
                | none => c :: pass2F f false rest) = false := by
            cases htw : tryWww rest with
            | some pr =>
                obtain ⟨host, rem⟩ := pr
                obtain ⟨hh, k, hrem⟩ := tryWww_sub rest host rem htw
                have hremf : hasLtScript rem = false :=
                  hrem ▸ hasLtScript_drop k rest hrest
                rw [hasLtScript_cons_false]
                refine ⟨?_, hanchor host rem hh hremf⟩
                rintro ⟨hc, hh'⟩
                have : (anchorW host ++ pass2F f false rem).head? = some '<' := rfl
                rw [this] at hh'
                exact absurd (Option.some.inj hh') (by decide)
            | none => exact hcopy false
          cases b with
          | true =>
              simp only [pass2F, if_true]
              cases htw0 : tryWww (c :: rest) with
              | some pr =>
                  obtain ⟨host, rem⟩ := pr
                  obtain ⟨hh, k, hrem⟩ := tryWww_sub (c :: rest) host rem htw0
                  have hremf : hasLtScript rem = false :=
                    hrem ▸ hasLtScript_drop k (c :: rest) hl
                  simp only
                  exact hanchor host rem hh hremf
              | none =>
                  simp only
                  by_cases hp : isP1 c = true
                  · rw [if_pos hp]
                    exact hstep
                  · rw [if_neg hp]
                    exact hcopy false
          | false =>
              simp only [pass2F, if_false]
              by_cases hp : isP1 c = true
              · rw [if_pos hp]
                exact hstep
              · rw [if_neg hp]
                exact hcopy false

/-- The email pass of `linkify` never creates a `<s` window. -/
theorem pass3F_no_ltS (f : Nat) (l : List Char)
    (hl : hasLtScript l = false) : hasLtScript (pass3F f l) = false := by
  induction f generalizing l with
  | zero => exact hl
  | succ f ih =>
      cases l with
      | nil => rfl
      | cons c rest =>
          obtain ⟨hpair, hrest⟩ := (hasLtScript_cons_false c rest).mp hl
          simp only [pass3F]
          cases hte : tryEmail (c :: rest) with
          | some pr =>
              obtain ⟨email, rem⟩ := pr
              obtain ⟨hh, k, hrem⟩ := tryEmail_sub (c :: rest) email rem hte
              have hremf : hasLtScript rem = false :=
                hrem ▸ hasLtScript_drop k (c :: rest) hl
              exact hasLtScript_append_false _ _ (anchorM_no_ltS email hh)
                (ih rem hremf) (Or.inl (by rw [anchorM_getLast]; decide))
          | none =>
              rw [hasLtScript_cons_false]
              refine ⟨?_, ih rest hrest⟩
              rintro ⟨hc, hh⟩
              rcases pass3F_head f rest 's' hh with he | he
              · exact absurd he (by decide)
              · exact hpair ⟨hc, he⟩

/-- A character of a single-character `replaceAll` output comes from the
replacement or is an unreplaced input character. -/
theorem replaceAllChar_mem (p : Char) (rep : List Char) (l : List Char)
    (c : Char) (hc : c ∈ replaceAllChar p rep l) :
    c ∈ rep ∨ (c ∈ l ∧ c ≠ p) := by
  unfold replaceAllChar at hc
  rcases List.mem_flatMap.mp hc with ⟨x, hx, hcx⟩
  by_cases hxp : x = p
  · rw [hxp, if_pos rfl] at hcx
    exact Or.inl hcx
  · rw [if_neg hxp] at hcx
    rw [List.mem_singleton.mp hcx]
    exact Or.inr ⟨hx, hxp⟩

/-- `escapeHtml` output contains no raw `<`, `>`, `"` or `'`: each is
replaced by its entity, and no entity text reintroduces one. -/
theorem escapeHtml_not_mem (l : List Char) (c : Char)
    (hc : c = '<' ∨ c = '>' ∨ c = '"' ∨ c = aposChar) :
    c ∉ escapeHtml l := by
  intro hm
  unfold escapeHtml at hm
  rcases replaceAllChar_mem _ _ _ _ hm with h | ⟨hm, hne1⟩
  · rcases hc with rfl | rfl | rfl | rfl <;> exact absurd h (by decide)
  rcases replaceAllChar_mem _ _ _ _ hm with h | ⟨hm, hne2⟩
  · rcases hc with rfl | rfl | rfl | rfl <;> exact absurd h (by decide)
  rcases replaceAllChar_mem _ _ _ _ hm with h | ⟨hm, hne3⟩
  · rcases hc with rfl | rfl | rfl | rfl <;> exact absurd h (by decide)
  rcases replaceAllChar_mem _ _ _ _ hm with h | ⟨hm, hne4⟩
  · rcases hc with rfl | rfl | rfl | rfl <;> exact absurd h (by decide)
  rcases hc with rfl | rfl | rfl | rfl
  · exact hne4 rfl
  · exact hne3 rfl
  · exact hne2 rfl
  · exact hne1 rfl

/-- Without a `<s` window there is no occurrence of any pattern starting
`<s`. -/
theorem hasSubList_ltScript (t l : List Char) (h : hasLtScript l = false) :
    hasSubList ('<' :: 's' :: t) l = false := by
  induction l with
  | nil => rfl
  | cons c rest ih =>
      obtain ⟨hpair, hrest⟩ := (hasLtScript_cons_false c rest).mp h
      show (listIsPrefOf ('<' :: 's' :: t) (c :: rest) ||
        hasSubList ('<' :: 's' :: t) rest) = false
      rw [ih hrest, Bool.or_false]
      show (decide ('<' = c) && listIsPrefOf ('s' :: t) rest) = false
      cases rest with
      | nil => simp [listIsPrefOf]
      | cons r0 rt =>
          show (decide ('<' = c) && (decide ('s' = r0) && listIsPrefOf t rt)) = false
          by_cases hc : c = '<'
          · have hr0 : ¬r0 = 's' := fun he => hpair ⟨hc, by rw [List.head?_cons, he]⟩
            simp only [Bool.and_eq_false_iff, decide_eq_false_iff_not]
            exact Or.inr (Or.inl (fun he => hr0 he.symm))
          · simp only [Bool.and_eq_false_iff, decide_eq_false_iff_not]
            exact Or.inl (fun he => hc he.symm)

/-- C7: `linkify` escapes the five HTML-significant characters over the raw
text before any pattern pass (the escaped text contains no raw `<`, `>`,
`"`, `'`), and consequently no input can make its output contain the
substring `<script>` — every `<` the passes emit starts anchor markup, and
is never followed by `s`. -/
theorem claim7_escape_then_no_script (raw : String) :
    ('<' ∉ escapeHtml raw.data ∧ '>' ∉ escapeHtml raw.data ∧
      '"' ∉ escapeHtml raw.data ∧ aposChar ∉ escapeHtml raw.data) ∧
    hasSubList ("<script>".data) (linkify raw).data = false := by
  refine ⟨⟨escapeHtml_not_mem _ _ (by tauto), escapeHtml_not_mem _ _ (by tauto),
    escapeHtml_not_mem _ _ (by tauto), escapeHtml_not_mem _ _ (by tauto)⟩, ?_⟩
  have h1 : hasLtScript (pass1 (escapeHtml raw.data)) = false :=
    pass1F_no_ltS _ _ (escapeHtml_not_mem raw.data '<' (by tauto))
  have h2 : hasLtScript (pass2 (pass1 (escapeHtml raw.data))) = false :=
    pass2F_no_ltS _ _ _ h1
  have h3 : hasLtScript (pass3 (pass2 (pass1 (escapeHtml raw.data)))) = false :=
    pass3F_no_ltS _ _ h2
  exact hasSubList_ltScript _ _ h3

/-- Witness for C7 at a concrete hostile input. -/
theorem claim7_escape_then_no_script_witness :
    hasSubList ("<script>".data)
      (linkify "<script>alert(1)</script>").data = false :=
  (claim7_escape_then_no_script "<script>alert(1)</script>").2

/-- C6 (code bug in `linkify`): the `www.` pass re-matches text already
wrapped by the URL pass.  On the input `https://www.example.com` the first
pass wraps the whole URL in an anchor; the `www.` pass then matches the
host inside the generated `href` attribute (preceded by `/`) and inside the
anchor text, producing nested, double-wrapped anchors and broken markup. -/
theorem claim6_linkify_double_wrap :
    linkify "https://www.example.com" =
      "<a href=\"https://<a href=\"https://www.example.com\"\" target=\"_blank\" rel=\"noopener noreferrer\">www.example.com\"</a> target=\"_blank\" rel=\"noopener noreferrer\">https://<a href=\"https://www.example.com\" target=\"_blank\" rel=\"noopener noreferrer\">www.example.com</a></a>" ∧
    hasSubList "https://<a href=".data (linkify "https://www.example.com").data
      = true := by
  constructor
  · set_option maxRecDepth 100000 in decide
  · set_option maxRecDepth 100000 in decide

end ChatApp
